import Mathlib

/-!
# Verification of the EPUB structural-resolution pipeline

A shallow embedding, in Lean 4, of the structural-resolution logic of the
`epub_converter` package (`src/epub_converter/converter.py` and
`src/epub_converter/parser.py`): the chapter-identifier map, TOC
reconciliation, image/anchor reference rewriting, fake-anchor conversion,
document assembly and the boilerplate filter, together with proofs and
refutations of the stated correctness properties.

Python strings are modelled as Lean `String`s operating on their `List Char`
data; `str.lower`/`str.strip` are modelled for the ASCII range (all inputs
relevant here are ASCII).  Python `dict`s (which keep insertion order and
overwrite values in place) are modelled as ordered association lists.
-/

namespace Epub

/-! ## ASCII character and string utilities -/

/-- ASCII lower-casing of one character, mirroring `str.lower` on ASCII. -/
def lowerChar (c : Char) : Char :=
  if 'A' ≤ c ∧ c ≤ 'Z' then Char.ofNat (c.toNat + 32) else c

/-- ASCII lower-casing of a string, mirroring `str.lower` on ASCII text. -/
def lowerStr (s : String) : String := ⟨s.data.map lowerChar⟩

/-- Whitespace characters stripped by `str.strip` (ASCII part). -/
def isSpaceChar (c : Char) : Bool :=
  c = ' ' ∨ c = '\t' ∨ c = '\n' ∨ c = '\x0d' ∨ c = '\x0b' ∨ c = '\x0c'

/-- `str.strip`: drop whitespace from both ends. -/
def trimStr (s : String) : String :=
  ⟨((s.data.dropWhile isSpaceChar).reverse.dropWhile isSpaceChar).reverse⟩

/-- `pat` occurs at the start of `cs` (list-level `startswith`). -/
def isPrefL : List Char → List Char → Bool
  | [], _ => true
  | _ :: _, [] => false
  | a :: as, b :: bs => a = b && isPrefL as bs

/-- Python's substring containment `pat in s` at the list level
(the empty pattern is contained in everything, as in Python). -/
def strInL (pat : List Char) : List Char → Bool
  | [] => pat.isEmpty
  | c :: rest => isPrefL pat (c :: rest) || strInL pat rest

/-- Python `pat in s` on strings. -/
def strIn (pat s : String) : Bool := strInL pat.data s.data

/-- Python `s.startswith(pat)`. -/
def startsW (s pat : String) : Bool := isPrefL pat.data s.data

/-- Python `s.endswith(pat)`. -/
def endsW (s pat : String) : Bool := isPrefL pat.data.reverse s.data.reverse

/-- Value of one hexadecimal digit, if any. -/
def hexVal (c : Char) : Option Nat :=
  if '0' ≤ c ∧ c ≤ '9' then some (c.toNat - 48)
  else if 'a' ≤ c ∧ c ≤ 'f' then some (c.toNat - 87)
  else if 'A' ≤ c ∧ c ≤ 'F' then some (c.toNat - 55)
  else none

/-- `urllib.parse.unquote` at the character-list level: decode `%XX` escapes,
leaving malformed escapes in place (modelled byte-per-character; faithful on
ASCII input, which is the only input the pipeline feeds it). -/
def unquoteL : List Char → List Char
  | [] => []
  | '%' :: a :: b :: rest =>
    match hexVal a, hexVal b with
    | some x, some y => Char.ofNat (16 * x + y) :: unquoteL rest
    | _, _ => '%' :: unquoteL (a :: b :: rest)
  | c :: rest => c :: unquoteL rest

/-- `urllib.parse.unquote` on strings. -/
def unquote (s : String) : String := ⟨unquoteL s.data⟩

/-- Split a character list at every occurrence of `sep`
(the semantics of `str.split(sep)` with all pieces kept). -/
def splitSeg (sep : Char) : List Char → List (List Char)
  | [] => [[]]
  | c :: rest =>
    let r := splitSeg sep rest
    if c = sep then [] :: r
    else
      match r with
      | [] => [[c]]
      | h :: t => (c :: h) :: t

/-- Replace every (non-overlapping, left-to-right) occurrence of `pat` by
`rep`, as `str.replace`; `fuel` bounds the scan (callers pass the length). -/
def replAll (pat rep : List Char) : Nat → List Char → List Char
  | _, [] => []
  | 0, cs => cs
  | fuel + 1, c :: rest =>
    if pat ≠ [] ∧ isPrefL pat (c :: rest) then
      rep ++ replAll pat rep fuel ((c :: rest).drop pat.length)
    else c :: replAll pat rep fuel rest

/-- `str.replace` on strings (the empty pattern never arises in this code). -/
def strReplace (s pat rep : String) : String :=
  if pat = "" then s else ⟨replAll pat.data rep.data (s.data.length + 1) s.data⟩

/-- Replace only the first occurrence of `pat`, as `str.replace(pat, rep, 1)`. -/
def replace1 (pat rep : List Char) : List Char → List Char
  | [] => []
  | c :: rest =>
    if pat ≠ [] ∧ isPrefL pat (c :: rest) then rep ++ (c :: rest).drop pat.length
    else c :: replace1 pat rep rest

/-- Split on the first occurrence of `sep`: returns the part before it and,
when `sep` occurs, the part after it (`str.split(sep, 1)`). -/
def splitOnce (sep : Char) : List Char → List Char × Option (List Char)
  | [] => ([], none)
  | c :: rest =>
    if c = sep then ([], some rest)
    else
      let r := splitOnce sep rest
      (c :: r.1, r.2)

/-! ## pathlib.PurePosixPath operations

`Path(s).parts` drops empty and `"."` components and keeps a leading `/` as a
root marker; `.name` is the last component (empty for the bare root);
`.stem` strips the last extension using CPython's `0 < i < len(name) - 1`
rule on the position of the last dot. -/

/-- `Path(s).parts` for a POSIX path string. -/
def pathParts (s : String) : List String :=
  let segs := ((splitSeg '/' s.data).map (fun l => (⟨l⟩ : String))).filter
    (fun t => t ≠ "" ∧ t ≠ ".")
  if isPrefL ['/'] s.data then "/" :: segs else segs

/-- `Path(s).name`. -/
def pathName (s : String) : String :=
  match (pathParts s).getLast? with
  | none => ""
  | some t => if t = "/" then "" else t

/-- Index of the last occurrence of `c` in `cs`, if any. -/
def lastIdxOf (c : Char) : List Char → Option Nat
  | [] => none
  | a :: rest =>
    match lastIdxOf c rest with
    | some j => some (j + 1)
    | none => if a = c then some 0 else none

/-- `Path(s).stem`. -/
def pathStem (s : String) : String :=
  let n := pathName s
  match lastIdxOf '.' n.data with
  | some i => if 0 < i ∧ i + 1 < n.data.length then ⟨n.data.take i⟩ else n
  | none => n

/-- Collapse `..` components against a stack of directory segments; `none`
when the path escapes above the root. -/
def collapseDots : List String → List String → Option (List String)
  | stack, [] => some stack.reverse
  | stack, seg :: rest =>
    if seg = ".." then
      match stack with
      | [] => none
      | _ :: t => collapseDots t rest
    else collapseDots (seg :: stack) rest

/-- Join path segments with `/` (`Path.as_posix` of a relative path;
the empty segment list renders as `"."`). -/
def joinSegs (segs : List String) : String :=
  match segs with
  | [] => "."
  | s :: rest => rest.foldl (fun acc t => acc ++ "/" ++ t) s

/-- `((content_dir / src).resolve()).relative_to(extract_dir).as_posix()`:
resolve `src` against the document directory `docDir` (given as segments
relative to the extraction root) and relativize to the root.  `none` models
the `ValueError` raised by `relative_to` when the path leaves the root
(absolute `src`, or more `..` components than directories; the extraction
root is an unguessable temporary directory, so a path that climbs above it
cannot re-enter it). -/
def resolveUnder (docDir : List String) (src : String) : Option String :=
  if isPrefL ['/'] src.data then none
  else (collapseDots [] (docDir ++ pathParts src)).map joinSegs

/-! ## Ordered dictionaries (Python `dict` with insertion order) -/

/-- An insertion-ordered string dictionary. -/
def Dict := List (String × String)

/-- `d.get(k)`. -/
def dget : Dict → String → Option String
  | [], _ => none
  | (k', v) :: rest, k => if k' = k then some v else dget rest k

/-- `d[k] = v`: overwrite in place if the key exists, else append. -/
def dset : Dict → String → String → Dict
  | [], k, v => [(k, v)]
  | (k', v') :: rest, k, v =>
    if k' = k then (k', v) :: rest else (k', v') :: dset rest k v

/-- `d.values()` in iteration order. -/
def dvals (d : Dict) : List String := d.map (·.2)

/-- Set several keys to the same value, in order. -/
def setAll (d : Dict) (ks : List String) (v : String) : Dict :=
  ks.foldl (fun acc k => dset acc k v) d

/-! ## Chapter anchors: `f"page{i:02d}"` -/

/-- The character of one decimal digit. -/
def digitChar (d : Nat) : Char := Char.ofNat (48 + d)

/-- Little-endian decimal digits, computed structurally on a fuel bound so
that concrete values reduce inside the kernel. -/
def digitsAuxF : Nat → Nat → List Nat
  | _, 0 => []
  | 0, _ + 1 => []
  | fuel + 1, n + 1 => (n + 1) % 10 :: digitsAuxF fuel ((n + 1) / 10)

/-- Little-endian decimal digits of `n`. -/
def decDigits (n : Nat) : List Nat := digitsAuxF n n

theorem digitsAuxF_eq_digits : ∀ fuel n, n ≤ fuel → digitsAuxF fuel n = Nat.digits 10 n := by
  intro fuel
  induction fuel with
  | zero => intro n hn; interval_cases n; simp [digitsAuxF]
  | succ fuel ih =>
    intro n hn
    match n with
    | 0 => simp [digitsAuxF]
    | n + 1 =>
      have hdiv : (n + 1) / 10 ≤ fuel := by
        have := Nat.div_lt_self (Nat.succ_pos n) (by norm_num : 1 < 10)
        omega
      show (n + 1) % 10 :: digitsAuxF fuel ((n + 1) / 10) = _
      rw [ih _ hdiv, Nat.digits_def' (by norm_num : 1 < 10) (Nat.succ_pos n)]

theorem decDigits_eq (n : Nat) : decDigits n = Nat.digits 10 n :=
  digitsAuxF_eq_digits n n le_rfl

/-- Decimal representation of a natural number (most significant digit
first), the rendering used by Python's `str`/format of an `int`. -/
def decRepr (n : Nat) : String :=
  if n = 0 then "0" else ⟨((decDigits n).map digitChar).reverse⟩

/-- Python's `f"{n:02d}"`: pad to two characters with `0`. -/
def pad2 (n : Nat) : String :=
  if n < 10 then "0" ++ decRepr n else decRepr n

/-- The chapter anchor `f"page{n:02d}"` assigned to spine ordinal `n`. -/
def anchorOf (n : Nat) : String := "page" ++ pad2 n

/-! ### Injectivity of `anchorOf` -/

theorem digitChar_inj : ∀ d, d < 10 → ∀ e, e < 10 → digitChar d = digitChar e → d = e := by
  decide

theorem digits_map_digitChar_inj {l₁ l₂ : List Nat}
    (h₁ : ∀ d ∈ l₁, d < 10) (h₂ : ∀ d ∈ l₂, d < 10)
    (h : l₁.map digitChar = l₂.map digitChar) : l₁ = l₂ := by
  induction l₁ generalizing l₂ with
  | nil => cases l₂ with
    | nil => rfl
    | cons b bs => simp at h
  | cons a as ih =>
    cases l₂ with
    | nil => simp at h
    | cons b bs =>
      simp only [List.map_cons, List.cons.injEq] at h
      have ha : a = b := digitChar_inj a (h₁ a (by simp)) b (h₂ b (by simp)) h.1
      have : as = bs := ih (fun d hd => h₁ d (by simp [hd])) (fun d hd => h₂ d (by simp [hd])) h.2
      simp [ha, this]

/-- For `n ≠ 0`, the leading character of `decRepr n` is the character of the
leading (non-zero) decimal digit. -/
theorem decRepr_head_ne_zero {n : Nat} (hn : n ≠ 0) :
    ∃ c, (decRepr n).data.head? = some c ∧ c ≠ '0' := by
  have hne : Nat.digits 10 n ≠ [] := Nat.digits_ne_nil_iff_ne_zero.mpr hn
  have hlast := Nat.getLast_digit_ne_zero 10 hn
  refine ⟨digitChar ((Nat.digits 10 n).getLast hne), ?_, ?_⟩
  · unfold decRepr
    rw [if_neg hn]
    show (((decDigits n).map digitChar).reverse).head? = _
    rw [decDigits_eq]
    rw [List.head?_reverse, List.getLast?_map, List.getLast?_eq_getLast _ hne]
    rfl
  · intro hc
    have hlt : (Nat.digits 10 n).getLast hne < 10 :=
      Nat.digits_lt_base (by norm_num) (List.getLast_mem hne)
    have : (Nat.digits 10 n).getLast hne = 0 :=
      digitChar_inj _ hlt 0 (by norm_num) hc
    exact hlast this

/-- `decRepr` of a non-zero number is not the string `"0"`. -/
theorem decRepr_ne_zero_str {n : Nat} (hn : n ≠ 0) : decRepr n ≠ "0" := by
  obtain ⟨c, hc, hcne⟩ := decRepr_head_ne_zero hn
  intro h
  rw [h] at hc
  have h0 : some '0' = some c := hc
  exact hcne (Option.some.inj h0).symm

theorem decRepr_inj : Function.Injective decRepr := by
  intro m n h
  have h0 : decRepr 0 = "0" := rfl
  by_cases hm : m = 0 <;> by_cases hn : n = 0
  · rw [hm, hn]
  · exfalso
    subst hm
    exact decRepr_ne_zero_str hn (h.symm.trans h0)
  · exfalso
    subst hn
    exact decRepr_ne_zero_str hm (h.trans h0)
  · unfold decRepr at h
    rw [if_neg hm, if_neg hn] at h
    simp only [decDigits_eq] at h
    have hdata := congrArg String.data h
    simp only at hdata
    have := digits_map_digitChar_inj
      (fun d hd => Nat.digits_lt_base (by norm_num) hd)
      (fun d hd => Nat.digits_lt_base (by norm_num) hd)
      (List.reverse_injective hdata)
    calc m = Nat.ofDigits 10 (Nat.digits 10 m) := (Nat.ofDigits_digits 10 m).symm
    _ = Nat.ofDigits 10 (Nat.digits 10 n) := by rw [this]
    _ = n := Nat.ofDigits_digits 10 n

/-- The zero-padded form of a small number can never coincide with the plain
form of a large one: their leading characters differ. -/
theorem pad2_small_ne_large {m n : Nat} (hn : ¬n < 10) :
    "0" ++ decRepr m ≠ decRepr n := by
  intro h
  obtain ⟨c, hc, hcne⟩ := decRepr_head_ne_zero (n := n) (by omega)
  have hdata := congrArg String.data h
  simp only [String.data_append] at hdata
  have hhead : (("0" : String).data ++ (decRepr m).data).head? = some c := by
    rw [hdata]; exact hc
  have h0 : some '0' = some c := hhead
  exact hcne (Option.some.inj h0).symm

theorem pad2_inj : Function.Injective pad2 := by
  intro m n h
  unfold pad2 at h
  by_cases hm : m < 10 <;> by_cases hn : n < 10
  · rw [if_pos hm, if_pos hn] at h
    have := congrArg String.data h
    simp only [String.data_append] at this
    exact decRepr_inj (String.ext (List.append_cancel_left this))
  · exact absurd (by rwa [if_pos hm, if_neg hn] at h) (pad2_small_ne_large hn)
  · exact absurd (by rw [if_neg hm, if_pos hn] at h; exact h.symm)
      (pad2_small_ne_large hm)
  · rw [if_neg hm, if_neg hn] at h
    exact decRepr_inj h

theorem anchorOf_inj : Function.Injective anchorOf := by
  intro m n h
  unfold anchorOf at h
  have := congrArg String.data h
  simp only [String.data_append] at this
  exact pad2_inj (String.ext (List.append_cancel_left this))

/-! ## The identifier map (`convert_single_epub`, converter.py 1105-1114)

For each content file (spine entry), given by its path relative to the
extraction root, the code registers five candidate keys under the entry's
chapter anchor with plain `dict` assignments. -/

/-- The five candidate keys registered for one spine entry, in registration
order: percent-decoded relative path, bare filename, stem, and the
`Text/`- and `OEBPS/`-prefixed filename variants. -/
def entryKeys (relPath : String) : List String :=
  [unquote relPath, pathName relPath, pathStem relPath,
   "Text/" ++ pathName relPath, "OEBPS/" ++ pathName relPath]

/-- Register one spine entry's candidate keys under its chapter anchor. -/
def registerEntry (d : Dict) (cid : String) (relPath : String) : Dict :=
  setAll d (entryKeys relPath) cid

/-- The `content_id_mapping` loop with ordinals starting at `i`. -/
def buildAux : Nat → List String → Dict → Dict
  | _, [], d => d
  | i, f :: rest, d => buildAux (i + 1) rest (registerEntry d (anchorOf i) f)

/-- `content_id_mapping` for the given content files in spine order. -/
def buildMapping (files : List String) : Dict := buildAux 1 files []

/-! ### Dictionary lemmas -/

theorem dget_dset_self (d : Dict) (k v : String) : dget (dset d k v) k = some v := by
  induction d with
  | nil => simp [dset, dget]
  | cons p rest ih =>
    obtain ⟨k', v'⟩ := p
    by_cases h : k' = k
    · simp [dset, dget, h]
    · simp [dset, dget, h, ih]

theorem dget_dset_ne (d : Dict) {k k' : String} (v : String) (h : k' ≠ k) :
    dget (dset d k' v) k = dget d k := by
  induction d with
  | nil => simp [dset, dget, h]
  | cons p rest ih =>
    obtain ⟨k₀, v₀⟩ := p
    by_cases h0 : k₀ = k'
    · subst h0
      simp [dset, dget, h]
    · simp [dset, h0, dget]
      split <;> simp [ih]

theorem dget_setAll (ks : List String) (d : Dict) (k v : String) :
    dget (setAll d ks v) k = if k ∈ ks then some v else dget d k := by
  induction ks generalizing d with
  | nil => simp [setAll]
  | cons a ks ih =>
    show dget (setAll (dset d a v) ks v) k = _
    rw [ih]
    by_cases hks : k ∈ ks
    · simp [hks]
    · by_cases hka : k = a
      · subst hka
        simp [hks, dget_dset_self]
      · simp [hks, hka, dget_dset_ne d v (fun h => hka h.symm)]

theorem dget_registerEntry_mem (d : Dict) (cid f k : String)
    (h : k ∈ entryKeys f) : dget (registerEntry d cid f) k = some cid := by
  unfold registerEntry
  rw [dget_setAll]
  simp [h]

theorem dget_registerEntry_not_mem (d : Dict) (cid f k : String)
    (h : k ∉ entryKeys f) : dget (registerEntry d cid f) k = dget d k := by
  unfold registerEntry
  rw [dget_setAll]
  simp [h]

theorem dget_buildAux_skip (files : List String) (k : String) :
    ∀ (n : Nat) (d : Dict), (∀ f ∈ files, k ∉ entryKeys f) →
      dget (buildAux n files d) k = dget d k := by
  induction files with
  | nil => intro n d _; rfl
  | cons f rest ih =>
    intro n d h
    show dget (buildAux (n + 1) rest (registerEntry d (anchorOf n) f)) k = _
    rw [ih (n + 1) _ (fun f' hf' => h f' (List.mem_cons_of_mem f hf'))]
    exact dget_registerEntry_not_mem _ _ _ _ (h f (List.mem_cons_self f rest))

/-- Last writer wins: if position `i` registers key `k` and no later position
registers it again, the final mapping sends `k` to the anchor of ordinal
`n + i` (the loop starts its ordinals at `n`). -/
theorem dget_buildAux (files : List String) :
    ∀ (n : Nat) (d : Dict) (i : Nat) (hi : i < files.length) (k : String),
      k ∈ entryKeys (files.get ⟨i, hi⟩) →
      (∀ (j : Nat) (hj : j < files.length), i < j → k ∉ entryKeys (files.get ⟨j, hj⟩)) →
      dget (buildAux n files d) k = some (anchorOf (n + i)) := by
  induction files with
  | nil => intro n d i hi; exact absurd hi (by simp)
  | cons f rest ih =>
    intro n d i hi k hk hlater
    match i with
    | 0 =>
      show dget (buildAux (n + 1) rest (registerEntry d (anchorOf n) f)) k = _
      have hkf : k ∈ entryKeys f := hk
      have hnone : ∀ f' ∈ rest, k ∉ entryKeys f' := by
        intro f' hf'
        obtain ⟨j, rfl⟩ := List.mem_iff_get.mp hf'
        have hj1 : j.val + 1 < (f :: rest).length := by
          have := j.isLt
          simp only [List.length_cons]
          omega
        exact hlater (j.val + 1) hj1 (Nat.succ_pos _)
      rw [dget_buildAux_skip rest k (n + 1) _ hnone]
      rw [dget_registerEntry_mem _ _ _ _ hkf, Nat.add_zero]
    | i' + 1 =>
      show dget (buildAux (n + 1) rest (registerEntry d (anchorOf n) f)) k = _
      have hi' : i' < rest.length := by
        simp only [List.length_cons] at hi
        omega
      have hk' : k ∈ entryKeys (rest.get ⟨i', hi'⟩) := hk
      have hlater' : ∀ (j : Nat) (hj : j < rest.length), i' < j →
          k ∉ entryKeys (rest.get ⟨j, hj⟩) := by
        intro j hj hij
        have hj1 : j + 1 < (f :: rest).length := by
          simp only [List.length_cons]
          omega
        exact hlater (j + 1) hj1 (Nat.succ_lt_succ hij)
      rw [ih (n + 1) _ i' hi' k hk' hlater']
      have harith : n + 1 + i' = n + (i' + 1) := by omega
      rw [harith]

/-! ## TOC reconciliation (`_map_toc_to_chapters`, converter.py 660-733)

TOC items are dictionaries `{'label': …, 'href': …, 'children': […]}`;
modelled as a node/forest pair of mutually inductive types (an item without
a `'children'` key is a node with the empty forest). -/

mutual
inductive TocNode where
  | mk (label : String) (href : String) (children : TocForest)
inductive TocForest where
  | nil
  | cons (hd : TocNode) (tl : TocForest)
end

/-- The node's target reference (its `'href'` value). -/
def TocNode.href : TocNode → String
  | .mk _ h _ => h

/-- The node's label. -/
def TocNode.label : TocNode → String
  | .mk l _ _ => l

/-- The file part of an href: everything before the first `#`
(the whole string if there is no fragment). -/
def splitHashFile (s : String) : String := ⟨(splitOnce '#' s.data).1⟩

/-- Python truthiness of an optional string (`None` and `''` are falsy). -/
def truthy : Option String → Option String
  | none => none
  | some v => if v = "" then none else some v

/-- `_find_closest_chapter_match`'s scan over the mapping items: return the
first chapter id whose (lower-cased) key is related to the candidate's
lower-cased filename or stem by substring containment in either direction. -/
def findClosestAux (fn st : String) : Dict → Option String
  | [] => none
  | (k, cid) :: rest =>
    let kl := lowerStr k
    if strIn fn kl ∨ strIn st kl ∨ strIn kl fn ∨ strIn kl st then some cid
    else findClosestAux fn st rest

/-- `_find_closest_chapter_match(file_path, content_id_mapping)`. -/
def findClosest (m : Dict) (filePath : String) : Option String :=
  findClosestAux (lowerStr (pathName filePath)) (lowerStr (pathStem filePath)) m

/-- The exact / bare-filename / percent-decoded lookup chain of
`process_toc_item` (an `elif` chain on dictionary containment). -/
def matchChapterRaw (m : Dict) (fp : String) : Option String :=
  match dget m fp with
  | some v => some v
  | none =>
    match dget m (pathName fp) with
    | some v => some v
    | none => dget m (unquote fp)

/-- The full chapter-id search of `process_toc_item`: the lookup chain, then
the fuzzy match when the result is falsy, then the final `if chapter_id:`
truthiness test that decides whether the node survives. -/
def matchChapterId (m : Dict) (fp : String) : Option String :=
  truthy (match truthy (matchChapterRaw m fp) with
    | some v => some v
    | none => findClosest m fp)

mutual

/-- `process_toc_item`: rewrite the node's href to `#<chapter_id>` (the
original fragment is discarded) and recurse into the children, or drop the
node (return `none`) when no chapter id is found. -/
def mapTocNode (m : Dict) : TocNode → Option TocNode
  | .mk label href children =>
    match matchChapterId m (splitHashFile href) with
    | some cid => some (.mk label ("#" ++ cid) (mapTocForest m children))
    | none => none

/-- `_map_toc_to_chapters`: map every item and drop the `None` results. -/
def mapTocForest (m : Dict) : TocForest → TocForest
  | .nil => .nil
  | .cons nd rest =>
    match mapTocNode m nd with
    | some nd' => .cons nd' (mapTocForest m rest)
    | none => mapTocForest m rest

end

mutual

/-- `P` holds at this node and all its descendants. -/
def NodeAll (P : TocNode → Prop) : TocNode → Prop
  | .mk label href children => P (.mk label href children) ∧ ForestAll P children

/-- `P` holds at every node of the forest. -/
def ForestAll (P : TocNode → Prop) : TocForest → Prop
  | .nil => True
  | .cons nd rest => NodeAll P nd ∧ ForestAll P rest

end

/-! ### Every surviving node's target is a mapping value -/

theorem dget_mem_dvals {m : Dict} {k v : String} (h : dget m k = some v) :
    v ∈ dvals m := by
  induction m with
  | nil => simp [dget] at h
  | cons p rest ih =>
    obtain ⟨k', v'⟩ := p
    by_cases hk : k' = k
    · have hv : v' = v := by simpa [dget, hk] using h
      show v ∈ v' :: dvals rest
      rw [hv]
      exact List.mem_cons_self _ _
    · have h' : dget rest k = some v := by simpa [dget, hk] using h
      show v ∈ v' :: dvals rest
      exact List.mem_cons_of_mem _ (ih h')

theorem findClosestAux_mem {fn st : String} {m : Dict} {v : String}
    (h : findClosestAux fn st m = some v) : v ∈ dvals m := by
  induction m with
  | nil => simp [findClosestAux] at h
  | cons p rest ih =>
    obtain ⟨k, cid⟩ := p
    simp only [findClosestAux] at h
    split at h
    · have : cid = v := Option.some.inj h
      show v ∈ cid :: dvals rest
      rw [this]
      exact List.mem_cons_self _ _
    · show v ∈ cid :: dvals rest
      exact List.mem_cons_of_mem _ (ih h)

theorem truthy_some {o : Option String} {v : String} (h : truthy o = some v) :
    o = some v := by
  match o with
  | none => simp [truthy] at h
  | some w =>
    simp only [truthy] at h
    split at h
    · exact absurd h (by simp)
    · exact h

theorem matchChapterRaw_mem {m : Dict} {fp v : String}
    (h : matchChapterRaw m fp = some v) : v ∈ dvals m := by
  unfold matchChapterRaw at h
  split at h
  · rename_i w heq
    exact dget_mem_dvals ((Option.some.inj h) ▸ heq)
  · split at h
    · rename_i w heq
      exact dget_mem_dvals ((Option.some.inj h) ▸ heq)
    · exact dget_mem_dvals h

theorem matchChapterId_mem {m : Dict} {fp v : String}
    (h : matchChapterId m fp = some v) : v ∈ dvals m := by
  unfold matchChapterId at h
  have h' := truthy_some h
  split at h'
  · rename_i w hw
    exact matchChapterRaw_mem (truthy_some (h' ▸ hw))
  · exact findClosestAux_mem h'

mutual

theorem mapTocNode_all (m : Dict) (P : String → Prop) (hm : ∀ v ∈ dvals m, P v) :
    ∀ (nd nd' : TocNode), mapTocNode m nd = some nd' →
      NodeAll (fun x => ∃ v, P v ∧ x.href = "#" ++ v) nd'
  | .mk label href children, nd', h => by
    simp only [mapTocNode] at h
    split at h
    · rename_i cid hcid
      have hnd : nd' = .mk label ("#" ++ cid) (mapTocForest m children) :=
        (Option.some.inj h).symm
      subst hnd
      exact ⟨⟨cid, hm cid (matchChapterId_mem hcid), rfl⟩,
        mapTocForest_all m P hm children⟩
    · exact absurd h (by simp)

theorem mapTocForest_all (m : Dict) (P : String → Prop) (hm : ∀ v ∈ dvals m, P v) :
    ∀ (f : TocForest), ForestAll (fun x => ∃ v, P v ∧ x.href = "#" ++ v) (mapTocForest m f)
  | .nil => trivial
  | .cons nd rest => by
    simp only [mapTocForest]
    split
    · rename_i nd' hnd'
      exact ⟨mapTocNode_all m P hm nd nd' hnd', mapTocForest_all m P hm rest⟩
    · exact mapTocForest_all m P hm rest

end

mutual

theorem NodeAll_imp (P Q : TocNode → Prop) (h : ∀ x, P x → Q x) :
    ∀ nd, NodeAll P nd → NodeAll Q nd
  | .mk _ _ children, ⟨hp, hf⟩ =>
    ⟨h _ hp, ForestAll_imp P Q h children hf⟩

theorem ForestAll_imp (P Q : TocNode → Prop) (h : ∀ x, P x → Q x) :
    ∀ f, ForestAll P f → ForestAll Q f
  | .nil, _ => trivial
  | .cons nd rest, ⟨hn, hf⟩ =>
    ⟨NodeAll_imp P Q h nd hn, ForestAll_imp P Q h rest hf⟩

end

/-! ### Values of the identifier map are exactly the chapter anchors -/

theorem dvals_dset {d : Dict} {k v w : String} (h : w ∈ dvals (dset d k v)) :
    w = v ∨ w ∈ dvals d := by
  induction d with
  | nil => exact Or.inl (by simpa [dset, dvals] using h)
  | cons p rest ih =>
    obtain ⟨k', v'⟩ := p
    by_cases hk : k' = k
    · rw [show dset ((k', v') :: rest) k v = (k', v) :: rest by simp [dset, hk]] at h
      have h2 : w ∈ v :: dvals rest := h
      rcases List.mem_cons.mp h2 with h3 | h3
      · exact Or.inl h3
      · exact Or.inr (List.mem_cons_of_mem _ h3)
    · rw [show dset ((k', v') :: rest) k v = (k', v') :: dset rest k v by
        simp [dset, hk]] at h
      have h2 : w ∈ v' :: dvals (dset rest k v) := h
      rcases List.mem_cons.mp h2 with h3 | h3
      · exact Or.inr (h3 ▸ List.mem_cons_self _ _)
      · rcases ih h3 with h4 | h4
        · exact Or.inl h4
        · exact Or.inr (List.mem_cons_of_mem _ h4)

theorem dvals_setAll {ks : List String} {d : Dict} {v w : String}
    (h : w ∈ dvals (setAll d ks v)) : w = v ∨ w ∈ dvals d := by
  induction ks generalizing d with
  | nil => exact Or.inr h
  | cons a ks ih =>
    rcases ih (d := dset d a v) h with h' | h'
    · exact Or.inl h'
    · exact dvals_dset h'

theorem dvals_buildAux {files : List String} :
    ∀ {n : Nat} {d : Dict} {w : String}, w ∈ dvals (buildAux n files d) →
      (∃ t, t < files.length ∧ w = anchorOf (n + t)) ∨ w ∈ dvals d := by
  induction files with
  | nil => intro n d w h; exact Or.inr h
  | cons f rest ih =>
    intro n d w h
    rcases ih (n := n + 1) (d := registerEntry d (anchorOf n) f) h with ⟨t, ht, hw⟩ | h'
    · exact Or.inl ⟨t + 1, by simpa using Nat.succ_lt_succ ht, by rw [hw]; congr 1; omega⟩
    · rcases dvals_setAll h' with h'' | h''
      · exact Or.inl ⟨0, by simp, by simpa using h''⟩
      · exact Or.inr h''

theorem dvals_buildMapping {files : List String} {w : String}
    (h : w ∈ dvals (buildMapping files)) :
    ∃ t, 1 ≤ t ∧ t ≤ files.length ∧ w = anchorOf t := by
  rcases dvals_buildAux (n := 1) (d := []) h with ⟨t, ht, hw⟩ | h'
  · exact ⟨1 + t, by omega, by omega, hw⟩
  · simp [dvals] at h'

/-! ## Document assembly (`combine_and_generate_html` / `_process_content_file`)

Each processed body is wrapped in
`f'<div class="chapter" id="page{i:02d}">\n{body}\n</div>'` with ordinals
enumerated from 1 in spine order (converter.py 507-509 and 537-543; the
parallel branch collects results keyed by ordinal and sorts, yielding the
same list). -/

/-- The chapter wrapper of `_process_content_file` (line 507). -/
def processContent (i : Nat) (body : String) : String :=
  "<div class=\"chapter\" id=\"" ++ anchorOf i ++ "\">\n" ++ body ++ "\n</div>"

/-- `combine_and_generate_html`'s enumeration loop starting at ordinal `i`. -/
def combineBodies : Nat → List String → List String
  | _, [] => []
  | i, b :: rest => processContent i b :: combineBodies (i + 1) rest

/-- The anchors `page01 … pageN` in order. -/
def chapterAnchors (n : Nat) : List String :=
  (List.range n).map (fun k => anchorOf (k + 1))

/-- The fixed prefix of every chapter container up to its `id` value. -/
def divPre : String := "<div class=\"chapter\" id=\""

/-- Read the `id` attribute back out of an assembled fragment. -/
def extractDivId (s : String) : Option String :=
  if isPrefL divPre.data s.data then
    some ⟨(s.data.drop divPre.data.length).takeWhile (fun c => c ≠ '"')⟩
  else none

theorem isPrefL_append (l r : List Char) : isPrefL l (l ++ r) = true := by
  induction l with
  | nil => rfl
  | cons c cs ih => simpa [isPrefL] using ih

theorem takeWhile_append_stop {p : Char → Bool} {xs : List Char} {y : Char}
    (hxs : ∀ x ∈ xs, p x = true) (hy : p y = false) (rest : List Char) :
    List.takeWhile p (xs ++ y :: rest) = xs := by
  induction xs with
  | nil => simp [List.takeWhile, hy]
  | cons x xs ih =>
    have hx : p x = true := hxs x (List.mem_cons_self _ _)
    simp only [List.cons_append, List.takeWhile, hx]
    congr 1
    exact ih (fun z hz => hxs z (List.mem_cons_of_mem _ hz))

/-- Every character of `decRepr n` is a decimal-digit character. -/
theorem decRepr_chars {n : Nat} {c : Char} (hc : c ∈ (decRepr n).data) :
    ∃ d, d < 10 ∧ c = digitChar d := by
  unfold decRepr at hc
  by_cases hn : n = 0
  · rw [if_pos hn] at hc
    have : c = '0' := by simpa using hc
    exact ⟨0, by norm_num, by rw [this]; rfl⟩
  · rw [if_neg hn] at hc
    have hc' : c ∈ ((decDigits n).map digitChar).reverse := hc
    rw [List.mem_reverse, List.mem_map] at hc'
    obtain ⟨d, hd, rfl⟩ := hc'
    rw [decDigits_eq] at hd
    exact ⟨d, Nat.digits_lt_base (by norm_num) hd, rfl⟩

theorem digitChar_ne_quote : ∀ d, d < 10 → digitChar d ≠ '"' := by decide

/-- No character of a chapter anchor is a double quote. -/
theorem anchorOf_no_quote {i : Nat} {c : Char} (hc : c ∈ (anchorOf i).data) :
    (c ≠ '"') := by
  unfold anchorOf pad2 at hc
  rw [String.data_append] at hc
  rcases List.mem_append.mp hc with h | h
  · intro hq
    rw [hq] at h
    simp at h
  · have hdig : ∃ d, d < 10 ∧ c = digitChar d := by
      by_cases hi : i < 10
      · rw [if_pos hi, String.data_append] at h
        rcases List.mem_append.mp h with h' | h'
        · exact ⟨0, by norm_num, by simpa using h'⟩
        · exact decRepr_chars h'
      · rw [if_neg hi] at h
        exact decRepr_chars h
    obtain ⟨d, hd, rfl⟩ := hdig
    exact digitChar_ne_quote d hd

theorem extractDivId_processContent (i : Nat) (b : String) :
    extractDivId (processContent i b) = some (anchorOf i) := by
  have hdata : (processContent i b).data =
      divPre.data ++ ((anchorOf i).data ++ ('"' :: ("\x3e\n" ++ b ++ "\n</div>").data)) := by
    show ((divPre ++ anchorOf i ++ "\">\n" ++ b ++ "\n</div>") : String).data = _
    simp only [String.data_append, List.append_assoc]
    rfl
  unfold extractDivId
  rw [hdata, isPrefL_append, if_pos rfl, List.drop_left]
  congr 1
  apply String.ext
  show List.takeWhile _ _ = _
  rw [takeWhile_append_stop (fun x hx => by
      simpa using anchorOf_no_quote hx) (by decide) _]

/-! ## `find_and_parse_toc` return arity (parser.py 283-287) and the
caller's 3-tuple unpacking (converter.py 980)

Python tuples of heterogeneous pipeline values are modelled as lists of a
sum type; unpacking `a, b, c = t` raises `ValueError` unless the tuple has
exactly three elements. -/

/-- A value appearing in `find_and_parse_toc`'s returned tuple. -/
inductive PyVal where
  | vToc (t : TocForest)
  | vMeta (kv : List (String × String))
  | vStrs (l : List String)

/-- The dispatch of `find_and_parse_toc`: with no OPF file it returns the
two-element tuple `[], {}` (parser.py 287); otherwise it runs the parsing
body (which returns three-element tuples on every path). -/
def findAndParseToc {α : Type} (body : α → List PyVal) : Option α → List PyVal
  | none => [PyVal.vToc TocForest.nil, PyVal.vMeta []]
  | some o => body o

/-- The caller's `toc, metadata, filtered_hrefs = …` unpacking. -/
def unpack3 (t : List PyVal) : Except String (PyVal × PyVal × PyVal) :=
  match t with
  | [a, b, c] => Except.ok (a, b, c)
  | _ => Except.error "ValueError: not enough values to unpack"

/-! ## The boilerplate filter (`_should_filter_content`, parser.py 108-156) -/

/-- The label patterns of `_should_filter_content`. -/
def filterPatterns : List String :=
  ["copyright", "newsletter", "about j-novel club", "about yen press",
   "yen newsletter", "j-novel club newsletter", "newsletter signup",
   "newsletter sign-up", "newsletter subscription", "subscribe now",
   "subscription page", "sign up page", "signup page", "contact us",
   "support page", "help page", "advertisement", "promo page",
   "promotion page", "legal notice", "legal information",
   "terms of service", "privacy policy", "back matter", "end matter",
   "colophon", "imprint", "publisher information", "about publisher",
   "credits and copyright", "copyright page", "other series"]

/-- The suspicious href fragments of `_should_filter_content`. -/
def unwantedFiles : List String :=
  ["newsletter", "signup", "copyright", "legal", "about",
   "contact", "support", "help", "ad", "promo", "subscribe"]

/-- `_should_filter_content(label, href)`; `none` models an absent argument
(Python `None`), and Python's `if not label` treats `None` and `''` alike. -/
def shouldFilterContent (label href : Option String) : Bool :=
  match label with
  | none => false
  | some l =>
    if l = "" then false
    else
      let ll := trimStr (lowerStr l)
      if filterPatterns.any (fun p =>
          let pl := lowerStr p
          (pl == ll) ||
            (strIn pl ll &&
              (startsW ll (pl ++ " ") || endsW ll (" " ++ pl) ||
               strIn (" " ++ pl ++ " ") ll)))
      then true
      else
        match href with
        | none => false
        | some h =>
          if h = "" then false
          else unwantedFiles.any (fun u => strIn u (lowerStr h))

/-! ## URL classification (converter.py 140-141, 781) -/

/-- One character of the regex class `[a-z0-9.+-]` (case-insensitive). -/
def isSchemeChar (c : Char) : Bool :=
  ('a' ≤ c ∧ c ≤ 'z') ∨ ('A' ≤ c ∧ c ≤ 'Z') ∨ ('0' ≤ c ∧ c ≤ '9') ∨
    c = '.' ∨ c = '+' ∨ c = '-'

/-- Match `[a-z0-9.+-]+:` at the start: at least one scheme character,
then a colon. -/
def schemeScan : List Char → Bool → Bool
  | [], _ => false
  | c :: rest, seen =>
    if c = ':' then seen
    else if isSchemeChar c then schemeScan rest true
    else false

/-- `data_url_pattern`, the regex `^(?:[a-z0-9.+-]+:|//)` with `IGNORECASE`:
an absolute URL with any scheme, or a protocol-relative URL. -/
def dataUrlMatch (s : String) : Bool :=
  isPrefL "//".data s.data || schemeScan s.data false

/-- `static_url_pattern`, the regex `^./static` (the dot is the unescaped
any-character wildcard). -/
def staticMatch (s : String) : Bool :=
  match s.data with
  | [] => false
  | _ :: rest => isPrefL "/static".data rest

/-- `href.lower().startswith(('http:', 'https:', 'mailto:', 'ftp:'))`
(converter.py 781). -/
def httpLike (href : String) : Bool :=
  startsW (lowerStr href) "http:" || startsW (lowerStr href) "https:" ||
    startsW (lowerStr href) "mailto:" || startsW (lowerStr href) "ftp:"

/-! ## Image source resolution (`replace_img_src_in_chapter`,
converter.py 291-377)

The callback receives the regex groups `tag_start`, the quote character and
the raw `src` value.  The context carries the content document's directory
(as segments relative to the extraction root) and the `PathMapping`.  The
dead `is_cover` computation of lines 300-324 (its result is never used) is
omitted.  Python treats an empty-string mapping value as a failed lookup
(`if not new_src`), hence the `truthy` wrappers. -/

/-- Context of one content document during image rewriting. -/
structure ImgCtx where
  docDir : List String
  mapping : Dict

/-- Method 4's normalization:
`src.replace('\\', '/').replace('..\\', '../').replace('..//', '../')`. -/
def normSlash (src : String) : String :=
  strReplace (strReplace (strReplace src "\x5c" "/") "..\x5c" "../") "..//" "../"

/-- Method 6: case-insensitive scan of the mapping keys against the whole
(lower-cased) `src`. -/
def scanCaseless (srcLower : String) : Dict → Option String
  | [] => none
  | (k, v) :: rest =>
    if lowerStr k = srcLower then some v else scanCaseless srcLower rest

/-- Method 7: scan for a key one of whose path segments equals the final
path segment of `src` (`src_parts[-1] in Path(key).parts`). -/
def scanParts (lastSeg : String) : Dict → Option String
  | [] => none
  | (k, v) :: rest =>
    if lastSeg ∈ pathParts k then some v else scanParts lastSeg rest

/-- Methods 1-7 of `replace_img_src_in_chapter`, as the source's chain of
`if not new_src:` re-assignments; `Except.error` models the `IndexError`
raised by `src_parts[-1]` when `src` has no path parts and methods 1-6 all
failed.  If every method fails the original `src` is kept. -/
def resolveImgSrc (ctx : ImgCtx) (src : String) : Except Unit String :=
  match truthy ((resolveUnder ctx.docDir src).bind (fun rel => dget ctx.mapping rel)) with
  | some v => Except.ok v
  | none =>
  match truthy (dget ctx.mapping src) with
  | some v => Except.ok v
  | none =>
  match truthy (dget ctx.mapping (pathName src)) with
  | some v => Except.ok v
  | none =>
  match truthy (dget ctx.mapping (normSlash src)) with
  | some v => Except.ok v
  | none =>
  match truthy (dget ctx.mapping (pathStem src)) with
  | some v => Except.ok v
  | none =>
  match truthy (scanCaseless (lowerStr src) ctx.mapping) with
  | some v => Except.ok v
  | none =>
  match (pathParts src).getLast?.map (fun lastSeg => truthy (scanParts lastSeg ctx.mapping)) with
  | none => Except.error ()
  | some (some v) => Except.ok v
  | some none => Except.ok src

/-- The full callback on the regex groups `(tag_start, quote, src_val)`:
percent-decode, pass data/absolute/protocol-relative URLs through untouched
(returning `match.group(0)`), otherwise substitute the resolved source. -/
def replaceImgSrcInChapter (ctx : ImgCtx) (tagStart q srcVal : String) :
    Except Unit String :=
  let src := unquote srcVal
  if startsW src "data:" || dataUrlMatch src then
    Except.ok (tagStart ++ q ++ srcVal ++ q)
  else
    (resolveImgSrc ctx src).map (fun newSrc => tagStart ++ q ++ newSrc ++ q)

/-- First defined value in a list of optional strategy results. -/
def firstSome : List (Option String) → Option String
  | [] => none
  | o :: rest =>
    match o with
    | some v => some v
    | none => firstSome rest

/-- The seven strategies in the claimed order, as an explicit ordered list of
independent candidates (step 7 in the code's membership form). -/
def imgStrategies (ctx : ImgCtx) (src : String) : List (Option String) :=
  [truthy ((resolveUnder ctx.docDir src).bind (fun rel => dget ctx.mapping rel)),
   truthy (dget ctx.mapping src),
   truthy (dget ctx.mapping (pathName src)),
   truthy (dget ctx.mapping (normSlash src)),
   truthy (dget ctx.mapping (pathStem src)),
   truthy (scanCaseless (lowerStr src) ctx.mapping),
   truthy ((pathParts src).getLast?.bind (fun lastSeg => scanParts lastSeg ctx.mapping))]

/-- Modelled from the spec's words (§4.5 step 7), for comparison with the
code: a scan for a key whose *final* path segment equals the final path
segment of `src`. -/
def scanFinalSegSpec (lastSeg : String) : Dict → Option String
  | [] => none
  | (k, v) :: rest =>
    if (pathParts k).getLast? = some lastSeg then some v
    else scanFinalSegSpec lastSeg rest

/-- Modelled from the spec's words: the seven-step resolution exactly as the
claim states it, with step 7 comparing final path segments. -/
def imgStrategiesSpec (ctx : ImgCtx) (src : String) : List (Option String) :=
  [truthy ((resolveUnder ctx.docDir src).bind (fun rel => dget ctx.mapping rel)),
   truthy (dget ctx.mapping src),
   truthy (dget ctx.mapping (pathName src)),
   truthy (dget ctx.mapping (normSlash src)),
   truthy (dget ctx.mapping (pathStem src)),
   truthy (scanCaseless (lowerStr src) ctx.mapping),
   truthy ((pathParts src).getLast?.bind (fun lastSeg => scanFinalSegSpec lastSeg ctx.mapping))]

/-! ## Anchor href rewriting (`fix_links_and_images`, converter.py 770-835) -/

/-- Index of the last position where `pat` starts inside `cs`. -/
def lastStartOf (pat : List Char) : List Char → Option Nat
  | [] => none
  | c :: rest =>
    match lastStartOf pat rest with
    | some j => some (j + 1)
    | none => if isPrefL pat (c :: rest) then some 0 else none

/-- Part of `tag_start` before the last occurrence of `pat`, or all of it if
`pat` does not occur (`tag_start.rsplit(pat, 1)[0]`). -/
def rsplitBefore (s pat : String) : String :=
  match lastStartOf pat.data s.data with
  | some i => ⟨s.data.take i⟩
  | none => s

/-- `tag_start.rsplit('href=', 1)[0].strip()`: strip the trailing
`href=` (and surrounding whitespace) off the opening tag, turning the
element into a non-linking one. -/
def stripHrefTag (tagStart : String) : String :=
  trimStr (rsplitBefore tagStart "href=")

/-- The `replace_a_href` callback of `fix_links_and_images` on the regex
groups `(tag_start, quote, href_val)`. -/
def replaceAHref (m : Dict) (tagStart q hrefVal : String) : String :=
  let href := unquote hrefVal
  if httpLike href then stripHrefTag tagStart
  else if dataUrlMatch href || staticMatch href then tagStart ++ q ++ hrefVal ++ q
  else
    let parts := splitOnce '#' href.data
    let filePart : String := ⟨parts.1⟩
    let fragment : String := ⟨parts.2.getD []⟩
    let newHref : Option String :=
      if filePart = "" ∧ fragment ≠ "" then
        if fragment ∈ dvals m then some ("#" ++ fragment) else none
      else if filePart ≠ "" then
        match truthy (dget m filePart) with
        | some cid => some ("#" ++ cid)
        | none =>
          match truthy (dget m (pathName filePart)) with
          | some cid => some ("#" ++ cid)
          | none => none
      else none
    match newHref with
    | some h => tagStart ++ q ++ h ++ q
    | none => stripHrefTag tagStart

/-! ## Fake-anchor conversion (`_fix_fake_anchors`, converter.py 159-229)

Two passes over the raw markup: first
`re.sub(r'<a\b[^>]*>', replace_tag, content, flags=IGNORECASE)` converts
every href-less opening `<a …>` into `<span …>`; then the content is
re-tokenized with `re.split(r'(</?a\b[^>]*>)', …)` and walked with a stack
meant to convert the matching closing tags. -/

/-- A word character for the regex `\b` boundary (ASCII part of `\w`). -/
def isWordChar (c : Char) : Bool :=
  ('a' ≤ c ∧ c ≤ 'z') ∨ ('A' ≤ c ∧ c ≤ 'Z') ∨ ('0' ≤ c ∧ c ≤ '9') ∨ c = '_'

/-- The `\\b` boundary after the tag name: the next character (if any) is
not a word character. -/
def boundaryOk : List Char → Bool
  | [] => true
  | d :: _ => ¬ isWordChar d

/-- Consume `[^>]*>`: everything up to and including the first `>`. -/
def scanToGt : List Char → Option (List Char × List Char)
  | [] => none
  | c :: rest =>
    if c = '>' then some ([c], rest)
    else (scanToGt rest).map (fun p => (c :: p.1, p.2))

/-- Match the regex `<a\b[^>]*>` at the head of `cs`; on success return the
matched tag text and the remainder. -/
def matchOpenA (cs : List Char) : Option (List Char × List Char) :=
  match cs with
  | '<' :: c :: rest =>
    if (c = 'a' ∨ c = 'A') ∧ boundaryOk rest then
      (scanToGt rest).map (fun p => ('<' :: c :: p.1, p.2))
    else none
  | _ => none

/-- `replace_tag`: keep tags containing `href=` or `href =`; otherwise turn
the first `<a` (then the first `<A`) into `<span`. -/
def replaceTag (tag : List Char) : List Char :=
  let tl := tag.map lowerChar
  if strInL "href=".data tl ∨ strInL "href =".data tl then tag
  else replace1 "<A".data "<span".data (replace1 "<a".data "<span".data tag)

/-- The first pass: `re.sub` over `<a\b[^>]*>`, scanning left to right and
resuming after each match (`fuel` bounds the scan; callers pass
`length + 1`). -/
def subOpenA : Nat → List Char → List Char
  | 0, cs => cs
  | fuel + 1, cs =>
    match matchOpenA cs with
    | some (tag, rest) => replaceTag tag ++ subOpenA fuel rest
    | none =>
      match cs with
      | [] => []
      | c :: rest => c :: subOpenA fuel rest

/-- Match the regex `</?a\b[^>]*>` at the head of `cs`. -/
def matchAnchorTok (cs : List Char) : Option (List Char × List Char) :=
  match cs with
  | '<' :: rest0 =>
    let sl : List Char × List Char :=
      match rest0 with
      | '/' :: r => (['/'], r)
      | _ => ([], rest0)
    match sl.2 with
    | c :: rest2 =>
      if (c = 'a' ∨ c = 'A') ∧ boundaryOk rest2 then
        (scanToGt rest2).map (fun p => (('<' :: sl.1) ++ c :: p.1, p.2))
      else none
    | [] => none
  | _ => none

/-- The second pass's tokenization:
`re.split(r'(</?a\b[^>]*>)', content)` with captured separators, producing
the alternating text/tag token list (empty text tokens included). -/
def splitToks : Nat → List Char → List Char → List String
  | 0, acc, cs => [⟨acc.reverse ++ cs⟩]
  | fuel + 1, acc, cs =>
    match matchAnchorTok cs with
    | some (tok, rest) => (⟨acc.reverse⟩ : String) :: (⟨tok⟩ : String) :: splitToks fuel [] rest
    | none =>
      match cs with
      | [] => [(⟨acc.reverse⟩ : String)]
      | c :: rest => splitToks fuel (c :: acc) rest

/-- The token walk of `_fix_fake_anchors` (converter.py 205-227): the stack
records, for each open anchor, whether it was converted. -/
def procToks : List String → List Bool → List String
  | [], _ => []
  | t :: rest, stack =>
    if t = "" then procToks rest stack
    else if isPrefL "<a".data (t.data.map lowerChar) then
      if strInL "href".data (t.data.map lowerChar) then
        t :: procToks rest (false :: stack)
      else
        (⟨replace1 "<A".data "<span".data (replace1 "<a".data "<span".data t.data)⟩ : String) ::
          procToks rest (true :: stack)
    else if isPrefL "</a".data (t.data.map lowerChar) then
      match stack with
      | [] => t :: procToks rest []
      | b :: stack' => (if b then "</span>" else t) :: procToks rest stack'
    else t :: procToks rest stack

/-- `_fix_fake_anchors(content)`. -/
def fixFakeAnchors (content : String) : String :=
  let c1 : List Char := subOpenA (content.data.length + 1) content.data
  String.join (procToks (splitToks (c1.length + 1) [] c1) [])

/-! # The claims -/

/-- C1, counterexample.  The claim asserts first-writer-wins for colliding
identifier-map keys: with spine `[Text/ch01.xhtml, OEBPS/ch01.xhtml]` the
bare filename `ch01.xhtml` should resolve to `page01`.  In the code the
registration loop uses plain `dict` assignment, so the second entry
overwrites the collided keys and the lookup yields `page02`, not
`page01`. -/
theorem claim_C1_counterexample :
    dget (buildMapping ["Text/ch01.xhtml", "OEBPS/ch01.xhtml"]) "ch01.xhtml"
      = some (anchorOf 2) ∧
    dget (buildMapping ["Text/ch01.xhtml", "OEBPS/ch01.xhtml"]) "ch01.xhtml"
      ≠ some (anchorOf 1) := by
  constructor
  · decide
  · decide

/-- C1, amended.  Every spine entry registers its five candidate keys, and a
key collided between several entries ends up mapped to the anchor of the
*last* entry that registers it (last writer wins, since `dict` assignment
overwrites); in particular a bare-filename lookup for two colliding spine
documents resolves to the later ordinal. -/
theorem claim_C1_amended (files : List String) (i : Nat) (hi : i < files.length)
    (k : String) (hk : k ∈ entryKeys (files.get ⟨i, hi⟩))
    (hlast : ∀ (j : Nat) (hj : j < files.length), i < j →
      k ∉ entryKeys (files.get ⟨j, hj⟩)) :
    dget (buildMapping files) k = some (anchorOf (i + 1)) := by
  have h := dget_buildAux files 1 [] i hi k hk hlast
  rwa [Nat.add_comm] at h

/-- C1, witness: the amended theorem applied to the colliding scenario of
the claim — the bare filename resolves to the second entry's anchor. -/
theorem claim_C1_witness :
    dget (buildMapping ["Text/ch01.xhtml", "OEBPS/ch01.xhtml"]) "ch01.xhtml"
      = some (anchorOf 2) :=
  claim_C1_amended ["Text/ch01.xhtml", "OEBPS/ch01.xhtml"] 1 (by decide)
    "ch01.xhtml" (by decide) (by decide)

/-- C2, confirmed.  After TOC reconciliation against the identifier map of
any spine, every node remaining anywhere in the returned tree has target
reference exactly `"#" ++ anchorOf t` for some surviving spine ordinal
`1 ≤ t ≤ N` (an anchor the assembler emits), with the original fragment
discarded; removed nodes aside, no dangling references remain. -/
theorem claim_C2 (files : List String) (toc : TocForest) :
    ForestAll (fun nd => ∃ t, 1 ≤ t ∧ t ≤ files.length ∧
        TocNode.href nd = "#" ++ anchorOf t)
      (mapTocForest (buildMapping files) toc) := by
  have base := mapTocForest_all (buildMapping files)
    (fun v => ∃ t, 1 ≤ t ∧ t ≤ files.length ∧ v = anchorOf t)
    (fun _ hv => dvals_buildMapping hv) toc
  refine ForestAll_imp _ _ ?_ _ base
  rintro x ⟨v, ⟨t, h1, h2, rfl⟩, hx⟩
  exact ⟨t, h1, h2, hx⟩

theorem combineBodies_extract (bodies : List String) :
    ∀ i : Nat, (combineBodies i bodies).map extractDivId
      = (List.range bodies.length).map (fun k => some (anchorOf (i + k))) := by
  induction bodies with
  | nil => intro i; rfl
  | cons b rest ih =>
    intro i
    show extractDivId (processContent i b) :: (combineBodies (i + 1) rest).map extractDivId = _
    rw [extractDivId_processContent, ih (i + 1)]
    simp only [List.length_cons, List.range_succ_eq_map, List.map_cons, List.map_map]
    congr 1
    exact List.map_congr_left (fun k _ => by
      show some (anchorOf (i + 1 + k)) = some (anchorOf (i + (k + 1)))
      have harith : i + 1 + k = i + (k + 1) := by omega
      rw [harith])

/-- C3, confirmed.  For any book the assembled fragments carry the id
attributes `page01 … pageN` in order — dense, contiguous, 1-based, no gaps
and (since `anchorOf` is injective) no duplicates — and each fragment is
wrapped in a `<div class="chapter" id="pageNN">` container whose id is read
back by `extractDivId`. -/
theorem claim_C3 (bodies : List String) :
    (combineBodies 1 bodies).map extractDivId
      = (chapterAnchors bodies.length).map some ∧
    (chapterAnchors bodies.length).Nodup := by
  constructor
  · rw [combineBodies_extract bodies 1]
    unfold chapterAnchors
    rw [List.map_map]
    exact List.map_congr_left (fun k _ => by
      show some (anchorOf (1 + k)) = some (anchorOf (k + 1))
      rw [Nat.add_comm])
  · unfold chapterAnchors
    refine (List.nodup_range _).map ?_
    intro a b hab
    have := anchorOf_inj hab
    omega

/-- C4, code-bug witness.  With no OPF document the Package Locator yields
`None` and `find_and_parse_toc` returns the two-element tuple `([], {})`
(parser.py 287), but `convert_single_epub` unpacks three values
(converter.py 980); the pipeline therefore raises `ValueError` instead of
completing via the filesystem fallback, whatever the parsing body would
return on the with-OPF branch. -/
theorem claim_C4 (α : Type) (body : α → List PyVal) :
    unpack3 (findAndParseToc body none)
      = Except.error "ValueError: not enough values to unpack" := rfl

/-- C5, counterexample.  The claim says a TOC node that matches no
identifier-map key under any strategy is re-targeted to chapter 1's
anchor.  In the code `process_toc_item` returns `None` for such a node and
`_map_toc_to_chapters` drops it: with spine `[Text/ch01.xhtml]` the node
`{label: notes, href: zzz.qqq}` is removed from the tree, not mapped to
`#page01`. -/
theorem claim_C5_counterexample :
    mapTocNode (buildMapping ["Text/ch01.xhtml"])
      (.mk "notes" "zzz.qqq" .nil) = none ∧
    mapTocForest (buildMapping ["Text/ch01.xhtml"])
      (.cons (.mk "notes" "zzz.qqq" .nil) .nil) = .nil ∧
    TocForest.nil ≠ TocForest.cons
      (.mk "notes" ("#" ++ anchorOf 1) .nil) .nil := by
  refine ⟨rfl, rfl, ?_⟩
  intro h
  exact TocForest.noConfusion h

/-- C5, amended.  A TOC node whose file part matches no identifier-map key
under the exact, bare-filename, percent-decoded or fuzzy strategies is
*removed* from the returned tree (together with its subtree), rather than
being re-targeted to chapter 1. -/
theorem claim_C5_amended (m : Dict) (label href : String) (children : TocForest)
    (f : TocForest) (h : matchChapterId m (splitHashFile href) = none) :
    mapTocNode m (.mk label href children) = none ∧
    mapTocForest m (.cons (.mk label href children) f) = mapTocForest m f := by
  have h1 : mapTocNode m (.mk label href children) = none := by
    simp [mapTocNode, h]
  refine ⟨h1, ?_⟩
  simp [mapTocForest, h1]

/-- C5, witness: the amended theorem applied to the unmatched node over the
one-chapter spine — the node is dropped from the forest. -/
theorem claim_C5_witness :
    mapTocNode (buildMapping ["Text/ch01.xhtml"])
      (.mk "appendix" "yyy.www" .nil) = none ∧
    mapTocForest (buildMapping ["Text/ch01.xhtml"])
      (.cons (.mk "appendix" "yyy.www" .nil) .nil)
      = mapTocForest (buildMapping ["Text/ch01.xhtml"]) .nil :=
  claim_C5_amended (buildMapping ["Text/ch01.xhtml"]) "appendix" "yyy.www"
    .nil .nil (by decide)

/-- C6, counterexample.  The claim says absolute-URL anchor hrefs are left
completely unchanged; but `replace_a_href` *strips* the href attribute of
`http:`/`https:`/`mailto:`/`ftp:` links (converter.py 781-786): on
`<a href="http://example.com/page"` the tag collapses to `<a`. -/
theorem claim_C6_counterexample :
    replaceAHref [("ch1.xhtml", "page01")] "<a href=" "\"" "http://example.com/page"
      = "<a" ∧
    replaceAHref [("ch1.xhtml", "page01")] "<a href=" "\"" "http://example.com/page"
      ≠ "<a href=" ++ "\"" ++ "http://example.com/page" ++ "\"" := by
  constructor
  · decide
  · decide

/-- C6, amended.  Image `src` values that are data URIs, absolute URLs or
protocol-relative URLs are never rewritten; anchor `href`s that are data
URIs, protocol-relative URLs or absolute URLs of schemes other than
http/https/mailto/ftp pass through unchanged; but anchor `href`s of scheme
http, https, mailto or ftp have their href attribute removed. -/
theorem claim_C6_amended :
    (∀ (ctx : ImgCtx) (tagStart q srcVal : String),
      (startsW (unquote srcVal) "data:" || dataUrlMatch (unquote srcVal)) = true →
      replaceImgSrcInChapter ctx tagStart q srcVal
        = Except.ok (tagStart ++ q ++ srcVal ++ q)) ∧
    (∀ (m : Dict) (tagStart q hrefVal : String),
      httpLike (unquote hrefVal) = false →
      (dataUrlMatch (unquote hrefVal) || staticMatch (unquote hrefVal)) = true →
      replaceAHref m tagStart q hrefVal = tagStart ++ q ++ hrefVal ++ q) ∧
    (∀ (m : Dict) (tagStart q hrefVal : String),
      httpLike (unquote hrefVal) = true →
      replaceAHref m tagStart q hrefVal = stripHrefTag tagStart) := by
  refine ⟨?_, ?_, ?_⟩
  · intro ctx tagStart q srcVal h
    simp [replaceImgSrcInChapter, h]
  · intro m tagStart q hrefVal h1 h2
    simp [replaceAHref, h1, h2]
  · intro m tagStart q hrefVal h
    simp [replaceAHref, h]

/-- C6, witness: a data-URI image src and an `irc:` anchor pass through
unchanged; an `https:` anchor is stripped of its href. -/
theorem claim_C6_witness :
    replaceImgSrcInChapter ⟨[], []⟩ "<img src=" "\"" "data:image/png;base64,AA"
      = Except.ok ("<img src=" ++ "\"" ++ "data:image/png;base64,AA" ++ "\"") ∧
    replaceAHref [] "<a href=" "\"" "irc://chan"
      = "<a href=" ++ "\"" ++ "irc://chan" ++ "\"" ∧
    replaceAHref [] "<a href=" "\"" "https://x" = stripHrefTag "<a href=" :=
  ⟨claim_C6_amended.1 ⟨[], []⟩ "<img src=" "\"" "data:image/png;base64,AA" (by decide),
   claim_C6_amended.2.1 [] "<a href=" "\"" "irc://chan" (by decide) (by decide),
   claim_C6_amended.2.2 [] "<a href=" "\"" "https://x" (by decide)⟩

/-- C7, counterexample.  In the spec's scenario — document in `Text/`,
`<img src="../Images/pic.JPG">`, mapping `Images/pic.jpg → /images/x01.avif`
— the claim expects the case-insensitive fallback to rewrite the src.  The
code's step 6 lower-cases the *whole raw src* (`../images/pic.jpg`) and
compares it to the keys, so nothing matches and the original src is kept. -/
theorem claim_C7_counterexample :
    replaceImgSrcInChapter ⟨["Text"], [("Images/pic.jpg", "/images/x01.avif")]⟩
        "<img src=" "\"" "../Images/pic.JPG"
      = Except.ok ("<img src=" ++ "\"" ++ "../Images/pic.JPG" ++ "\"") ∧
    ("../Images/pic.JPG" : String) ≠ "/images/x01.avif" := by
  constructor
  · rfl
  · decide

/-- C7, amended.  In that scenario every resolution step fails — step 6
compares the full lower-cased src `../images/pic.jpg` against the keys, not
the relativized path — and the src is kept unchanged (with a diagnostic),
not rewritten to `/images/x01.avif`. -/
theorem claim_C7_amended :
    resolveImgSrc ⟨["Text"], [("Images/pic.jpg", "/images/x01.avif")]⟩
        "../Images/pic.JPG"
      = Except.ok "../Images/pic.JPG" ∧
    scanCaseless (lowerStr "../Images/pic.JPG")
        [("Images/pic.jpg", "/images/x01.avif")] = none := by
  constructor
  · rfl
  · rfl

/-- C8, counterexample.  The claim describes step 7 as matching keys whose
*final* path segment equals the final path segment of the src; the code
instead tests membership of the src's final segment among *all* of the
key's segments.  For src `Images` and mapping key `Images/pic.jpg` every
step of the claim's procedure fails (so the claim predicts the src is kept)
yet the code rewrites to `/images/x01.avif`. -/
theorem claim_C8_counterexample :
    resolveImgSrc ⟨[], [("Images/pic.jpg", "/images/x01.avif")]⟩ "Images"
      = Except.ok "/images/x01.avif" ∧
    firstSome (imgStrategiesSpec ⟨[], [("Images/pic.jpg", "/images/x01.avif")]⟩
      "Images") = none ∧
    ("/images/x01.avif" : String) ≠ "Images" := by
  refine ⟨rfl, by decide, by decide⟩

/-- C8, amended.  Image src resolution applies the seven strategies in the
stated strict order, stopping at the first (truthy) success, and keeps the
original src when all fail — with step 7 reading: a key one of whose path
segments equals the final path segment of the src.  Stated as equality with
the ordered strategy list under first-success semantics, whenever the src
has a final path segment (otherwise the code raises `IndexError`). -/
theorem claim_C8_amended (ctx : ImgCtx) (src : String)
    (h : (pathParts src).getLast? ≠ none) :
    resolveImgSrc ctx src
      = Except.ok ((firstSome (imgStrategies ctx src)).getD src) := by
  obtain ⟨lastSeg, hl⟩ : ∃ z, (pathParts src).getLast? = some z := by
    cases hx : (pathParts src).getLast? with
    | none => exact absurd hx h
    | some z => exact ⟨z, rfl⟩
  unfold resolveImgSrc imgStrategies
  rw [hl]
  simp only [Option.map_some', Option.some_bind]
  cases h1 : truthy ((resolveUnder ctx.docDir src).bind
      (fun rel => dget ctx.mapping rel)) with
  | some v => rfl
  | none =>
  cases h2 : truthy (dget ctx.mapping src) with
  | some v => rfl
  | none =>
  cases h3 : truthy (dget ctx.mapping (pathName src)) with
  | some v => rfl
  | none =>
  cases h4 : truthy (dget ctx.mapping (normSlash src)) with
  | some v => rfl
  | none =>
  cases h5 : truthy (dget ctx.mapping (pathStem src)) with
  | some v => rfl
  | none =>
  cases h6 : truthy (scanCaseless (lowerStr src) ctx.mapping) with
  | some v => rfl
  | none =>
  cases h7 : truthy (scanParts lastSeg ctx.mapping) with
  | some v => rfl
  | none => rfl

/-- C8, witness: the amended strict-order equality at a concrete context
where step 7 (membership form) fires. -/
theorem claim_C8_witness :
    resolveImgSrc ⟨[], [("pics/a.jpg", "/images/p01.avif")]⟩ "pics"
      = Except.ok ((firstSome (imgStrategies
          ⟨[], [("pics/a.jpg", "/images/p01.avif")]⟩ "pics")).getD "pics") :=
  claim_C8_amended ⟨[], [("pics/a.jpg", "/images/p01.avif")]⟩ "pics" (by decide)

/-- C9, code-bug witness.  The first pass of `_fix_fake_anchors` already
rewrites every href-less opening `<a …>` to `<span …>`, so the second,
depth-tracking pass never sees a convertible opening tag and its stack
only ever holds `False`: the matching closing `</a>` is left unconverted.
On `<a id="note1">footnote</a>` the code produces mismatched markup
`<span id="note1">footnote</a>` instead of the documented
`<span id="note1">footnote</span>`. -/
theorem claim_C9_failing :
    fixFakeAnchors "<a id=\"note1\">footnote</a>"
      = "<span id=\"note1\">footnote</a>" ∧
    fixFakeAnchors "<a id=\"note1\">footnote</a>"
      ≠ "<span id=\"note1\">footnote</span>" := by
  constructor
  · decide
  · decide

/-- C10, confirmed.  `_should_filter_content` returns `False` whenever the
label is absent or empty, whatever the href: the href-based
suspicious-fragment tests are only reachable with a non-empty label, so an
empty-labelled TOC entry is never classified as boilerplate. -/
theorem claim_C10 :
    (∀ href : Option String, shouldFilterContent none href = false) ∧
    (∀ href : Option String, shouldFilterContent (some "") href = false) := by
  constructor
  · intro href; rfl
  · intro href; rfl

end Epub
